import Mathlib

/-!
Verification of the bookkeeping ledger core against its specification.

The Rust sources are shallowly embedded: `BTreeMap` becomes a sorted
association list over `Nat` keys, `u64` amounts become `Nat`, the `i128`
accumulator becomes `Int` (the spec assumes the wide accumulator never
overflows), reference-counted ownership becomes an explicit strong-count
model, and fallible operations return `Except`.
-/

namespace Bookkeeping

/-- Entity identifiers are unsigned integers (`usize` in the source). -/
abbrev EntityId := Nat

/-- A key identifying a unit inside `Sum` and `Balance` maps; units are
ordered and compared by their `EntityId`. -/
abbrev UnitKey := Nat

/-- Lookup in an association list, mirroring `BTreeMap::get`. -/
def lookupA {κ α : Type} [DecidableEq κ] : List (κ × α) → κ → Option α
  | [], _ => none
  | (k, v) :: rest, q => if q = k then some v else lookupA rest q

/-- The keys of the association list are strictly increasing, as in a
`BTreeMap` iterated in order. -/
def KeysSorted {α : Type} (l : List (Nat × α)) : Prop :=
  l.Pairwise (fun p q => p.1 < q.1)

instance {α : Type} (l : List (Nat × α)) : Decidable (KeysSorted l) := by
  unfold KeysSorted; infer_instance

/-- Rust `BTreeMap::entry(k).and_modify(f).or_insert(d)`: update the value at `k`
with `f` when present, insert `d` otherwise, keeping the keys sorted. -/
def upsert {α : Type} : List (Nat × α) → Nat → (α → α) → α → List (Nat × α)
  | [], k, _, d => [(k, d)]
  | (k₁, v) :: rest, k, f, d =>
    if k < k₁ then (k, d) :: (k₁, v) :: rest
    else if k = k₁ then (k₁, f v) :: rest
    else (k₁, v) :: upsert rest k f d

/-- Rust `Sum`: a map from unit key to an unsigned (`u64`) amount, embedded as a
sorted association list. -/
abbrev Sum := List (UnitKey × Nat)

/-- Rust `Sum::of(unit, amount)`: single-entry constructor. -/
def Sum.of (u : UnitKey) (amount : Nat) : Sum := [(u, amount)]

/-- Modelled from the spec: `sum.rs` is not among the sources; §3 and §4.5
state that the builder step `.unit(unit, amount)` adds one more pair, with
amounts for a repeated unit key accumulating rather than overwriting. -/
def Sum.unit (s : Sum) (u : UnitKey) (amount : Nat) : Sum :=
  upsert s u (fun old => old + amount) amount

/-- Rust `Balance`: a map from unit key to a signed wide (`i128`) total,
embedded as a sorted association list. Equality of balances is the
structural equality of these maps (`derive PartialEq`). -/
abbrev Balance := List (UnitKey × Int)

/-- Rust `Balance::new()`: the empty balance. -/
def Balance.new : Balance := []

/-- Rust `Balance::operation`: for every `(unit, amount)` pair of the sum, update
the balance entry at that unit with `amount_op(old, amount)`, inserting
`amount_op(0, amount)` when the unit is absent. -/
def Balance.operation (self : Balance) (rhs : Sum) (amount_op : Int → Nat → Int) :
    Balance :=
  rhs.foldl (fun acc p => upsert acc p.1 (fun b => amount_op b p.2) (amount_op 0 p.2)) self

/-- Rust `SubAssign<&Sum> for Balance`: subtract each amount, widened to `i128`. -/
def Balance.subAssign (self : Balance) (sum : Sum) : Balance :=
  self.operation sum (fun balance_amount sum_amount => balance_amount - (sum_amount : Int))

/-- Rust `Sub<&Sum> for Balance`: clone, then mutate the clone in place. -/
def Balance.sub (self : Balance) (sum : Sum) : Balance :=
  let result := self
  result.subAssign sum

/-- Rust `AddAssign<&Sum> for Balance`: add each amount, widened to `i128`. -/
def Balance.addAssign (self : Balance) (sum : Sum) : Balance :=
  self.operation sum (fun balance_amount sum_amount => balance_amount + (sum_amount : Int))

/-- Rust `Add<&Sum> for Balance`: clone, then mutate the clone in place. -/
def Balance.add (self : Balance) (sum : Sum) : Balance :=
  let result := self
  result.addAssign sum

theorem mem_upsert {α : Type} (m : List (Nat × α)) (k : Nat) (f : α → α) (d : α)
    (q : Nat × α) (hmem : q ∈ upsert m k f d) : q.1 = k ∨ q ∈ m := by
  induction m with
  | nil =>
    simp [upsert] at hmem
    simp [hmem]
  | cons p rest ih =>
    obtain ⟨k₂, v₂⟩ := p
    by_cases g1 : k < k₂
    · simp only [upsert, if_pos g1, List.mem_cons] at hmem
      rcases hmem with h | h | h
      · left; simp [h]
      · right; simp [h]
      · right; exact List.mem_cons_of_mem _ h
    · by_cases g2 : k = k₂
      · simp only [upsert, if_neg g1, if_pos g2, List.mem_cons] at hmem
        rcases hmem with h | h
        · left; subst g2; simp [h]
        · right; exact List.mem_cons_of_mem _ h
      · simp only [upsert, if_neg g1, if_neg g2, List.mem_cons] at hmem
        rcases hmem with h | h
        · right; simp [h]
        · rcases ih h with h' | h'
          · left; exact h'
          · right; exact List.mem_cons_of_mem _ h'

theorem upsert_keysSorted {α : Type} (m : List (Nat × α)) (k : Nat) (f : α → α) (d : α)
    (h : KeysSorted m) : KeysSorted (upsert m k f d) := by
  induction m with
  | nil => simp [upsert, KeysSorted]
  | cons p rest ih =>
    obtain ⟨k₁, v⟩ := p
    rw [KeysSorted, List.pairwise_cons] at h
    obtain ⟨hlt, hrest⟩ := h
    by_cases h1 : k < k₁
    · simp only [upsert, if_pos h1, KeysSorted, List.pairwise_cons]
      refine ⟨?_, ?_, hrest⟩
      · intro q hq
        rcases List.mem_cons.mp hq with hq | hq
        · subst hq; exact h1
        · exact lt_trans h1 (hlt q hq)
      · exact hlt
    · by_cases h2 : k = k₁
      · simp only [upsert, if_neg h1, if_pos h2, KeysSorted, List.pairwise_cons]
        exact ⟨hlt, hrest⟩
      · simp only [upsert, if_neg h1, if_neg h2, KeysSorted, List.pairwise_cons]
        refine ⟨?_, ih hrest⟩
        intro q hq
        rcases mem_upsert rest k f d q hq with h | h
        · rw [h]; omega
        · exact hlt q h

theorem lookupA_upsert {α : Type} (m : List (Nat × α)) (k q : Nat) (f : α → α) (d : α)
    (h : KeysSorted m) :
    lookupA (upsert m k f d) q =
      if q = k then some ((lookupA m k).elim d f) else lookupA m q := by
  induction m with
  | nil => by_cases hq : q = k <;> simp [upsert, lookupA, hq]
  | cons p rest ih =>
    obtain ⟨k₁, v⟩ := p
    rw [KeysSorted, List.pairwise_cons] at h
    obtain ⟨hlt, hrest⟩ := h
    by_cases h1 : k < k₁
    · -- k is absent from (k₁,v)::rest since all keys are ≥ k₁ > k
      have habs : lookupA ((k₁, v) :: rest) k = none := by
        simp only [lookupA, if_neg (by omega : ¬k = k₁)]
        clear ih hrest
        induction rest with
        | nil => rfl
        | cons p' rest' ih' =>
          obtain ⟨k₂, v₂⟩ := p'
          have hk₂ : k₁ < k₂ := hlt (k₂, v₂) (List.mem_cons_self _ _)
          simp only [lookupA, if_neg (by omega : ¬k = k₂)]
          exact ih' (fun q hq => hlt q (List.mem_cons_of_mem _ hq))
      simp only [upsert, if_pos h1, lookupA]
      by_cases hq : q = k
      · simp [hq, if_neg (by omega : ¬k = k₁), habs]
        have := habs
        simp only [lookupA, if_neg (by omega : ¬k = k₁)] at this
        simp [this]
      · simp [hq]
    · by_cases h2 : k = k₁
      · subst h2
        simp only [upsert, if_neg h1, if_pos rfl, lookupA]
        by_cases hq : q = k
        · simp [hq]
        · simp [hq]
      · simp only [upsert, if_neg h1, if_neg h2, lookupA]
        by_cases hq : q = k₁
        · have hqk : ¬q = k := by omega
          have hkk : ¬k₁ = k := fun hh => h2 hh.symm
          simp [hq, hqk, hkk]
        · simp only [if_neg hq]
          rw [ih hrest]

theorem lookupA_eq_none_of_lt {α : Type} (l : List (Nat × α)) (k : Nat)
    (h : ∀ p ∈ l, k < p.1) : lookupA l k = none := by
  induction l with
  | nil => rfl
  | cons p rest ih =>
    obtain ⟨k₁, v⟩ := p
    have hk₁ : k < k₁ := h (k₁, v) (List.mem_cons_self _ _)
    simp only [lookupA, if_neg (by omega : ¬k = k₁)]
    exact ih (fun q hq => h q (List.mem_cons_of_mem _ hq))

theorem operation_keysSorted (s : Sum) : ∀ (b : Balance) (op : Int → Nat → Int),
    KeysSorted b → KeysSorted (Balance.operation b s op) := by
  induction s with
  | nil => intro b op hb; simpa [Balance.operation] using hb
  | cons p rest ih =>
    intro b op hb
    obtain ⟨u, a⟩ := p
    simp only [Balance.operation, List.foldl_cons]
    exact ih (upsert b u (fun x => op x a) (op 0 a)) op
      (upsert_keysSorted b u _ _ hb)

theorem operation_lookup (s : Sum) : ∀ (b : Balance) (op : Int → Nat → Int) (q : UnitKey),
    KeysSorted b → KeysSorted s →
    lookupA (Balance.operation b s op) q =
      match lookupA s q with
      | none => lookupA b q
      | some a => some ((lookupA b q).elim (op 0 a) (fun v => op v a)) := by
  induction s with
  | nil => intro b op q _ _; simp [Balance.operation, lookupA]
  | cons p rest ih =>
    intro b op q hb hs
    obtain ⟨u, a⟩ := p
    rw [KeysSorted, List.pairwise_cons] at hs
    obtain ⟨hlt, hrest⟩ := hs
    simp only [Balance.operation, List.foldl_cons]
    have hstep := ih (upsert b u (fun x => op x a) (op 0 a)) op q
      (upsert_keysSorted b u _ _ hb) hrest
    rw [Balance.operation] at hstep
    rw [hstep]
    by_cases hq : q = u
    · subst hq
      have habs : lookupA rest q = none := lookupA_eq_none_of_lt rest q hlt
      rw [habs]
      simp only [lookupA, if_pos rfl]
      rw [lookupA_upsert b q q _ _ hb]
      simp
    · simp only [lookupA, if_neg hq]
      cases hrq : lookupA rest q with
      | none =>
        simp only []
        rw [lookupA_upsert b u q _ _ hb, if_neg hq]
      | some a' =>
        simp only []
        rw [lookupA_upsert b u q _ _ hb, if_neg hq]

/-- Claim C1: applying a sum to a balance via `+=` / `-=` updates, for every
`(unit, amount)` pair of the sum, the balance entry at that unit by adding
respectively subtracting the amount widened to `i128`, inserting a fresh
entry of `0 ± amount` when the unit was absent; in particular
`Balance::new() + Sum::of(u, 9)` is `{u: 9}` and
`Balance::new() - Sum::of(u, 9)` is `{u: -9}`. -/
theorem balance_applies_sum_pointwise (u : UnitKey) (b : Balance) (s : Sum) (q : UnitKey)
    (hb : KeysSorted b) (hs : KeysSorted s) :
    Balance.addAssign Balance.new (Sum.of u 9) = [(u, 9)] ∧
    Balance.subAssign Balance.new (Sum.of u 9) = [(u, -9)] ∧
    lookupA (Balance.addAssign b s) q =
      (match lookupA s q with
       | none => lookupA b q
       | some a => some ((lookupA b q).getD 0 + (a : Int))) ∧
    lookupA (Balance.subAssign b s) q =
      (match lookupA s q with
       | none => lookupA b q
       | some a => some ((lookupA b q).getD 0 - (a : Int))) := by
  refine ⟨?_, ?_, ?_, ?_⟩
  · simp [Balance.addAssign, Balance.operation, Sum.of, Balance.new, upsert]
  · simp [Balance.subAssign, Balance.operation, Sum.of, Balance.new, upsert]
  · rw [Balance.addAssign, operation_lookup s b _ q hb hs]
    cases lookupA s q with
    | none => rfl
    | some a => cases lookupA b q <;> simp
  · rw [Balance.subAssign, operation_lookup s b _ q hb hs]
    cases lookupA s q with
    | none => rfl
    | some a => cases lookupA b q <;> simp

theorem balance_applies_sum_pointwise_witness :
    Balance.addAssign Balance.new (Sum.of 0 9) = [(0, 9)] ∧
    Balance.subAssign Balance.new (Sum.of 0 9) = [(0, -9)] ∧
    lookupA (Balance.addAssign [(0, 4)] (Sum.of 0 9)) 0 =
      (match lookupA (Sum.of 0 9) 0 with
       | none => lookupA [((0 : UnitKey), (4 : Int))] 0
       | some a => some ((lookupA [((0 : UnitKey), (4 : Int))] 0).getD 0 + (a : Int))) ∧
    lookupA (Balance.subAssign [(0, 4)] (Sum.of 0 9)) 0 =
      (match lookupA (Sum.of 0 9) 0 with
       | none => lookupA [((0 : UnitKey), (4 : Int))] 0
       | some a => some ((lookupA [((0 : UnitKey), (4 : Int))] 0).getD 0 - (a : Int))) :=
  balance_applies_sum_pointwise 0 [(0, 4)] (Sum.of 0 9) 0 (by decide) (by decide)

/-- Claim C4: adding a `(unit, amount)` pair to a sum that already holds an
amount for that unit accumulates the two amounts rather than overwriting;
a fresh unit is inserted with its amount. -/
theorem sum_unit_accumulates (s : Sum) (u : UnitKey) (a : Nat) (hs : KeysSorted s) :
    lookupA (Sum.unit s u a) u = some ((lookupA s u).elim a (fun v => v + a)) ∧
    Sum.unit (Sum.of u 2) u 3 = [(u, 5)] := by
  constructor
  · rw [Sum.unit, lookupA_upsert s u u _ _ hs]
    simp
  · simp [Sum.unit, Sum.of, upsert]

theorem sum_unit_accumulates_witness :
    lookupA (Sum.unit [((0 : UnitKey), 2)] 0 3) 0 =
      some ((lookupA [((0 : UnitKey), (2 : Nat))] 0).elim 3 (fun v => v + 3)) ∧
    Sum.unit (Sum.of 0 2) 0 3 = [(0, 5)] :=
  sum_unit_accumulates [(0, 2)] 0 3 (by decide)

/-- Claim C5: the pure `balance + &sum` / `balance - &sum` are the
clone-then-mutate counterparts of `+=` / `-=`: they return a fresh balance
equal to applying the mutating operation to a clone, the original value
being left unchanged (balances here are pure values). -/
theorem pure_ops_are_clone_then_mutate (b : Balance) (s : Sum) :
    Balance.add b s = Balance.addAssign b s ∧ Balance.sub b s = Balance.subAssign b s :=
  ⟨rfl, rfl⟩

/-- Claim C8: `+=` / `-=` never remove a unit entry and create an entry for
every unit of the sum even when the resulting amount is `0`; hence for a
nonempty sum `s`, `(Balance::new() + &s) - &s` holds explicit zero entries
and differs, under the structural map equality of `Balance`, from
`Balance::new()`. -/
theorem balance_keeps_zero_entries (b : Balance) (s : Sum) (q : UnitKey)
    (hb : KeysSorted b) (hs : KeysSorted s) :
    ((lookupA b q).isSome → (lookupA (Balance.addAssign b s) q).isSome ∧
      (lookupA (Balance.subAssign b s) q).isSome) ∧
    ((lookupA s q).isSome → (lookupA (Balance.addAssign b s) q).isSome ∧
      (lookupA (Balance.subAssign b s) q).isSome) ∧
    (s ≠ [] → Balance.sub (Balance.add Balance.new s) s ≠ Balance.new) := by
  have hadd := operation_lookup s b (fun x a => x + (a : Int)) q hb hs
  have hsub := operation_lookup s b (fun x a => x - (a : Int)) q hb hs
  rw [Balance.addAssign]
  rw [Balance.subAssign]
  refine ⟨?_, ?_, ?_⟩
  · intro hq
    rw [hadd, hsub]
    cases lookupA s q <;> simp_all
  · intro hq
    rw [hadd, hsub]
    cases hsq : lookupA s q <;> simp_all
  · intro hne heq
    obtain ⟨⟨u, a⟩, rest, rfl⟩ : ∃ p rest, s = p :: rest := by
      cases s with
      | nil => exact absurd rfl hne
      | cons p rest => exact ⟨p, rest, rfl⟩
    have hb1 : KeysSorted (Balance.add Balance.new ((u, a) :: rest)) := by
      rw [Balance.add, Balance.addAssign]
      exact operation_keysSorted _ Balance.new _ (by constructor)
    have hsu : lookupA ((u, a) :: rest) u = some a := by simp [lookupA]
    have hlook := operation_lookup ((u, a) :: rest)
      (Balance.add Balance.new ((u, a) :: rest)) (fun x a => x - (a : Int)) u hb1 hs
    rw [Balance.sub, Balance.subAssign] at heq
    rw [heq] at hlook
    rw [hsu] at hlook
    simp [Balance.new, lookupA] at hlook

theorem balance_keeps_zero_entries_witness :
    (lookupA [((0 : UnitKey), (4 : Int))] 0).isSome ∧
    (lookupA (Balance.addAssign [(0, 4)] (Sum.of 0 9)) 0).isSome ∧
    (lookupA (Balance.subAssign [(0, 4)] (Sum.of 0 9)) 0).isSome ∧
    Balance.sub (Balance.add Balance.new (Sum.of 0 9)) (Sum.of 0 9) ≠ Balance.new :=
  have h := balance_keeps_zero_entries [(0, 4)] (Sum.of 0 9) 0 (by decide) (by decide)
  ⟨by decide, (h.1 (by decide)).1, (h.1 (by decide)).2, h.2.2 (by decide)⟩

/-- The registry: a registry identifier plus the identity-ordered
collections of live accounts, units and moves, each entity represented by
its `EntityId` (collection equality reduces to id-set equality). -/
structure Index where
  id : Nat
  accounts : List EntityId
  units : List EntityId
  moves : List EntityId
deriving DecidableEq

/-- A fresh, empty registry carrying the next registry identifier. -/
def Index.new (rid : Nat) : Index := ⟨rid, [], [], []⟩

/-- Modelled from the spec: `index.rs` is not among the sources; §4.1 states
that equality of two `Index` instances is by the registry identifier
assigned at construction, not by contents (exercised by the `partial_eq`
test in `book.rs`). -/
def Index.eq (self other : Index) : Bool := self.id == other.id

/-- Rust `Book<T>`: book-level metadata plus a shared handle to one `Index`. -/
structure Book (M : Type) where
  meta : M
  index : Index

/-- Rust `Book::new(meta)`: stores the metadata and allocates a fresh `Index`;
the fresh registry identifier is drawn from the creation counter `rid`. -/
def Book.new {M : Type} (meta : M) (rid : Nat) : Book M := ⟨meta, Index.new rid⟩

/-- Independent creation of a book: consumes the current registry counter
and returns the next one, so two independent creations get distinct
registry identifiers. -/
def Book.newFresh {M : Type} (meta : M) (rid : Nat) : Book M × Nat :=
  (Book.new meta rid, rid + 1)

/-- Rust `PartialEq for Book`: `other.index == self.index`, comparing registry
identifiers only — metadata plays no part. -/
def Book.eq {M : Type} (self other : Book M) : Bool := Index.eq other.index self.index

/-- Rust `Book::new_account`: the id is the current size of the account
collection; the account is inserted into that collection (insertion of the
largest id into a `BTreeSet` ordered by id is an append). -/
def Book.new_account {M : Type} (b : Book M) : Book M × EntityId :=
  let id := b.index.accounts.length
  ({ b with index := { b.index with accounts := b.index.accounts ++ [id] } }, id)

/-- Rust `Book::new_unit`: symmetric to `new_account`, in the unit id space. -/
def Book.new_unit {M : Type} (b : Book M) : Book M × EntityId :=
  let id := b.index.units.length
  ({ b with index := { b.index with units := b.index.units ++ [id] } }, id)

/-- One creation request against a book: either a new account or a new unit. -/
inductive Creation where
  | account
  | unit
deriving DecidableEq

/-- Run a sequence of creation requests against a book. -/
def Book.run {M : Type} (b : Book M) : List Creation → Book M
  | [] => b
  | Creation.account :: rest => (b.new_account).1.run rest
  | Creation.unit :: rest => (b.new_unit).1.run rest

theorem run_range {M : Type} (cmds : List Creation) :
    ∀ (n k : Nat) (b : Book M), b.index.accounts = List.range n →
    b.index.units = List.range k →
    (b.run cmds).index.accounts = List.range (n + cmds.count Creation.account) ∧
    (b.run cmds).index.units = List.range (k + cmds.count Creation.unit) := by
  induction cmds with
  | nil => intro n k b ha hu; simp [Book.run, ha, hu]
  | cons c rest ih =>
    intro n k b ha hu
    cases c with
    | account =>
      have hlen : (b.new_account).1.index.accounts = List.range (n + 1) := by
        simp [Book.new_account, ha, List.range_succ]
      have hu' : (b.new_account).1.index.units = List.range k := by
        simp [Book.new_account, hu]
      have := ih (n + 1) k (b.new_account).1 hlen hu'
      simp only [Book.run]
      refine ⟨?_, ?_⟩
      · rw [this.1]; congr 1; rw [List.count_cons_self]; omega
      · rw [this.2]; congr 1
    | unit =>
      have hlen : (b.new_unit).1.index.units = List.range (k + 1) := by
        simp [Book.new_unit, hu, List.range_succ]
      have ha' : (b.new_unit).1.index.accounts = List.range n := by
        simp [Book.new_unit, ha]
      have := ih n (k + 1) (b.new_unit).1 ha' hlen
      simp only [Book.run]
      refine ⟨?_, ?_⟩
      · rw [this.1]; congr 1
      · rw [this.2]; congr 1; rw [List.count_cons_self]; omega

/-- Claim C2: for every book, account and unit ids are assigned densely per
kind — the first entity of a kind gets id 0, each later one the previous id
plus 1, with separate id spaces and no reuse — and every creation inserts
the entity into its kind's collection, which therefore holds exactly the
created entities ordered by id. -/
theorem ids_dense_per_kind {M : Type} (m : M) (rid : Nat) (cmds : List Creation) :
    ((Book.new m rid).run cmds).index.accounts =
      List.range (cmds.count Creation.account) ∧
    ((Book.new m rid).run cmds).index.units =
      List.range (cmds.count Creation.unit) := by
  have := run_range cmds 0 0 (Book.new m rid) rfl rfl
  simpa using this

/-- Claim C3: two books are equal iff they share the same `Index`, compared
by registry identifier, regardless of metadata; every book equals itself,
and two independently created books are unequal even with identical
metadata. -/
theorem book_equality_is_registry_identity {M : Type} (b b₁ b₂ : Book M) (m : M) (c : Nat) :
    Book.eq b b = true ∧
    (Book.eq b₁ b₂ = true ↔ b₁.index.id = b₂.index.id) ∧
    Book.eq (Book.newFresh m c).1 (Book.newFresh m (Book.newFresh m c).2).1 = false := by
  refine ⟨?_, ?_, ?_⟩
  · simp [Book.eq, Index.eq]
  · simp only [Book.eq, Index.eq, beq_iff_eq]
    exact ⟨fun h => h.symm, fun h => h.symm⟩
  · simp only [Book.eq, Index.eq, Book.newFresh, Book.new, Index.new]
    rw [beq_eq_false_iff_ne]
    omega

/-- Rust `Unit<T>`: an entity id, user metadata, and a shared handle to the
owning registry. -/
structure Unit' (M : Type) where
  id : EntityId
  meta : M
  index : Index

/-- Rust `Debug for Unit`: `debug_struct("Unit").field("id", &self.id)` — only
the id is printed, never the metadata. -/
def Unit'.fmtDebug {M : Type} (u : Unit' M) : String :=
  "Unit \x7b id: " ++ toString u.id ++ " \x7d"

/-- Claim C10: the debug representation of a unit exposes only its entity
id (for id 0 it is exactly "Unit \x7b id: 0 \x7d") and never echoes
metadata, so two units with the same id have identical debug output
whatever their metadata. -/
theorem unit_debug_only_id {M : Type} (u₁ u₂ : Unit' M) (m : M) (idx : Index)
    (h : u₁.id = u₂.id) :
    Unit'.fmtDebug u₁ = Unit'.fmtDebug u₂ ∧
    Unit'.fmtDebug ⟨0, m, idx⟩ = "Unit \x7b id: 0 \x7d" := by
  constructor
  · rw [Unit'.fmtDebug, Unit'.fmtDebug, h]
  · simp only [Unit'.fmtDebug]
    decide

theorem unit_debug_only_id_witness :
    Unit'.fmtDebug (⟨0, true, Index.new 0⟩ : Unit' Bool) =
      Unit'.fmtDebug (⟨0, false, Index.new 0⟩ : Unit' Bool) ∧
    Unit'.fmtDebug (⟨0, true, Index.new 0⟩ : Unit' Bool) = "Unit \x7b id: 0 \x7d" :=
  unit_debug_only_id ⟨0, true, Index.new 0⟩ ⟨0, false, Index.new 0⟩ true (Index.new 0) rfl

/-- Modelled from the spec: `move_.rs` is not among the sources; §3 and
§4.4 state that a move holds ownership references to its two accounts and,
via its `Sum`, to every referenced unit. A move record carries its id, the
two account ids and the unit keys of its sum. -/
structure MoveRec where
  id : EntityId
  fromAccount : EntityId
  toAccount : EntityId
  units : List UnitKey
deriving DecidableEq

/-- Ownership state of one book and the entities created under it: whether
the book itself is alive, the registry with its collections, the ids of all
entities ever created, and for each entity the number of externally
retained handles (`Rc` clones held by the caller). -/
structure RcState where
  bookAlive : Bool
  index : Index
  accountsCreated : List EntityId
  unitsCreated : List EntityId
  movesCreated : List MoveRec
  extAccount : EntityId → Nat
  extUnit : EntityId → Nat
  extMove : EntityId → Nat

/-- A move is alive while the registry's move collection or an external
handle retains it. -/
def moveAlive (s : RcState) (mid : EntityId) : Bool :=
  s.index.moves.contains mid || s.extMove mid != 0

/-- Strong count of a move: one for the registry's collection when present,
plus the external handles. -/
def moveStrongCount (s : RcState) (mid : EntityId) : Nat :=
  (if s.index.moves.contains mid then 1 else 0) + s.extMove mid

/-- Strong count of an account: registry's collection, external handles,
and one per live move that references it as either endpoint. -/
def accountStrongCount (s : RcState) (a : EntityId) : Nat :=
  (if s.index.accounts.contains a then 1 else 0) + s.extAccount a +
    s.movesCreated.countP
      (fun m => moveAlive s m.id && (m.fromAccount == a || m.toAccount == a))

/-- Strong count of a unit: registry's collection, external handles, and
one per live move whose sum references it. -/
def unitStrongCount (s : RcState) (u : UnitKey) : Nat :=
  (if s.index.units.contains u then 1 else 0) + s.extUnit u +
    s.movesCreated.countP (fun m => moveAlive s m.id && m.units.contains u)

/-- Strong count of the registry: one for the book while it is alive, plus
one per live entity, each of which holds a back-reference to the registry. -/
def indexStrongCount (s : RcState) : Nat :=
  (if s.bookAlive then 1 else 0) +
    s.accountsCreated.countP (fun a => accountStrongCount s a != 0) +
    s.unitsCreated.countP (fun u => unitStrongCount s u != 0) +
    s.movesCreated.countP (fun m => moveStrongCount s m.id != 0)

/-- Rust `Drop for Book`: the single teardown transition — clears the
registry's account, unit and move collections, then the book's own
reference to the registry lapses. -/
def Book.drop (s : RcState) : RcState :=
  { s with bookAlive := false,
           index := { s.index with accounts := [], units := [], moves := [] } }

/-- Claim C6: destroying a book clears the registry's account, unit and
move collections, and this teardown is the one transition that runs before
the registry can be released: after it, the registry is held only by
surviving entities, so when no external handles exist its strong count
reaches zero. -/
theorem book_drop_clears_registry (s : RcState) :
    (Book.drop s).index.accounts = [] ∧
    (Book.drop s).index.units = [] ∧
    (Book.drop s).index.moves = [] ∧
    ((∀ a, s.extAccount a = 0) → (∀ u, s.extUnit u = 0) → (∀ mid, s.extMove mid = 0) →
      indexStrongCount (Book.drop s) = 0) := by
  refine ⟨rfl, rfl, rfl, ?_⟩
  intro hacc hunit hmove
  have hAliveFalse : ∀ mid, moveAlive (Book.drop s) mid = false := by
    intro mid
    simp [moveAlive, Book.drop, hmove]
  have hMoveZero : ∀ mid, moveStrongCount (Book.drop s) mid = 0 := by
    intro mid
    simp [moveStrongCount, Book.drop, hmove]
  have hAccZero : ∀ a, accountStrongCount (Book.drop s) a = 0 := by
    intro a
    simp only [accountStrongCount, Book.drop, List.contains_nil, if_neg Bool.false_ne_true]
    rw [hacc a]
    rw [List.countP_eq_zero.mpr]
    intro m _
    simp [moveAlive, hmove]
  have hUnitZero : ∀ u, unitStrongCount (Book.drop s) u = 0 := by
    intro u
    simp only [unitStrongCount, Book.drop, List.contains_nil, if_neg Bool.false_ne_true]
    rw [hunit u]
    rw [List.countP_eq_zero.mpr]
    intro m _
    simp [moveAlive, hmove]
  simp only [indexStrongCount]
  rw [List.countP_eq_zero.mpr (fun a _ => by simp [hAccZero]),
    List.countP_eq_zero.mpr (fun u _ => by simp [hUnitZero]),
    List.countP_eq_zero.mpr (fun m _ => by simp [hMoveZero])]
  simp [Book.drop]

/-- Claim C7: destroying a book releases every entity with no holder other
than the registry, while an account or unit referenced by an externally
retained move stays alive, because the move co-owns its two accounts and,
via its sum, every referenced unit. -/
theorem book_drop_releases_unheld (s : RcState) :
    (∀ a, s.extAccount a = 0 →
      (∀ m ∈ s.movesCreated, s.extMove m.id = 0 ∨ (m.fromAccount ≠ a ∧ m.toAccount ≠ a)) →
      accountStrongCount (Book.drop s) a = 0) ∧
    (∀ u, s.extUnit u = 0 →
      (∀ m ∈ s.movesCreated, s.extMove m.id = 0 ∨ u ∉ m.units) →
      unitStrongCount (Book.drop s) u = 0) ∧
    (∀ mid, s.extMove mid = 0 → moveStrongCount (Book.drop s) mid = 0) ∧
    (∀ m ∈ s.movesCreated, 0 < s.extMove m.id →
      0 < accountStrongCount (Book.drop s) m.fromAccount ∧
      0 < accountStrongCount (Book.drop s) m.toAccount ∧
      ∀ u ∈ m.units, 0 < unitStrongCount (Book.drop s) u) := by
  refine ⟨?_, ?_, ?_, ?_⟩
  · intro a hext hm
    simp only [accountStrongCount, Book.drop, List.contains_nil, if_neg Bool.false_ne_true]
    rw [hext]
    rw [List.countP_eq_zero.mpr]
    intro m hmem
    rcases hm m hmem with h | h
    · simp [moveAlive, Book.drop, h]
    · simp [moveAlive, Book.drop, h.1, h.2]
  · intro u hext hm
    simp only [unitStrongCount, Book.drop, List.contains_nil, if_neg Bool.false_ne_true]
    rw [hext]
    rw [List.countP_eq_zero.mpr]
    intro m hmem
    rcases hm m hmem with h | h
    · simp [moveAlive, Book.drop, h]
    · simp [moveAlive, Book.drop, h]
  · intro mid hext
    simp [moveStrongCount, Book.drop, hext]
  · intro m hmem hext
    have halive : moveAlive (Book.drop s) m.id = true := by
      simp [moveAlive, Book.drop]
      omega
    refine ⟨?_, ?_, ?_⟩
    · have : 0 < (Book.drop s).movesCreated.countP
          (fun m' => moveAlive (Book.drop s) m'.id &&
            (m'.fromAccount == m.fromAccount || m'.toAccount == m.fromAccount)) := by
        rw [List.countP_pos_iff]
        exact ⟨m, hmem, by simp [halive]⟩
      simp only [accountStrongCount]
      omega
    · have : 0 < (Book.drop s).movesCreated.countP
          (fun m' => moveAlive (Book.drop s) m'.id &&
            (m'.fromAccount == m.toAccount || m'.toAccount == m.toAccount)) := by
        rw [List.countP_pos_iff]
        exact ⟨m, hmem, by simp [halive]⟩
      simp only [accountStrongCount]
      omega
    · intro u hu
      have : 0 < (Book.drop s).movesCreated.countP
          (fun m' => moveAlive (Book.drop s) m'.id && m'.units.contains u) := by
        rw [List.countP_pos_iff]
        refine ⟨m, hmem, ?_⟩
        simp [halive, List.contains, hu]
      simp only [unitStrongCount]
      omega

/-- The teardown scenario of the `drop` test: one book with two accounts,
one unit, and one move between the accounts carrying that unit, no handle
retained by the caller. -/
def teardownState : RcState :=
  { bookAlive := true
    index := ⟨0, [0, 1], [0], [0]⟩
    accountsCreated := [0, 1]
    unitsCreated := [0]
    movesCreated := [⟨0, 0, 1, [0]⟩]
    extAccount := fun _ => 0
    extUnit := fun _ => 0
    extMove := fun _ => 0 }

/-- The same scenario with the move retained externally by the caller. -/
def retainedMoveState : RcState :=
  { teardownState with extMove := fun mid => if mid = 0 then 1 else 0 }

theorem book_drop_clears_registry_witness :
    (Book.drop teardownState).index.accounts = [] ∧
    (Book.drop teardownState).index.units = [] ∧
    (Book.drop teardownState).index.moves = [] ∧
    indexStrongCount (Book.drop teardownState) = 0 :=
  have h := book_drop_clears_registry teardownState
  ⟨h.1, h.2.1, h.2.2.1, h.2.2.2 (fun _ => rfl) (fun _ => rfl) (fun _ => rfl)⟩

theorem book_drop_releases_unheld_witness :
    accountStrongCount (Book.drop retainedMoveState) 2 = 0 ∧
    unitStrongCount (Book.drop retainedMoveState) 5 = 0 ∧
    moveStrongCount (Book.drop retainedMoveState) 7 = 0 ∧
    (0 < accountStrongCount (Book.drop retainedMoveState) 0 ∧
     0 < accountStrongCount (Book.drop retainedMoveState) 1 ∧
     ∀ u ∈ [(0 : UnitKey)], 0 < unitStrongCount (Book.drop retainedMoveState) u) := by
  have h := book_drop_releases_unheld retainedMoveState
  refine ⟨?_, ?_, ?_, ?_⟩
  · exact h.1 2 rfl (by decide)
  · exact h.2.1 5 rfl (by decide)
  · exact h.2.2.1 7 rfl
  · exact h.2.2.2 ⟨0, 0, 1, [0]⟩ (by decide) (by decide)

end Bookkeeping

namespace EnvelopeSystem

/-- Money from the external `rusty_money` crate, specified only at its
interface: a value carrying an amount and a currency code. -/
structure Money where
  amount : Int
  currency : String
deriving DecidableEq

/-- Rust `rusty_money::Currency`, identified by its ISO alpha code. -/
structure Currency where
  iso_alpha_code : String
deriving DecidableEq

/-- Rust `entities::move_::Entity`: an account key and a money payload. -/
structure MoveEntity where
  account_key : Nat
  money : Money
deriving DecidableEq

/-- Rust `entities::transaction_draft::Entity`: a group of moves. -/
structure TransactionDraftEntity where
  moves : List MoveEntity

/-- Rust `entities::transaction::Entity`: a group of moves. -/
structure TransactionEntity where
  moves : List MoveEntity

/-- Rust `entities::account::Entity`: an account with a name. -/
structure AccountEntity where
  name : String
deriving DecidableEq

/-- Rust `ChangeApplicationFailure`: the only failure of applying a change. -/
inductive ChangeApplicationFailure where
  | CurrencyAlreadyExists (code : String)
deriving DecidableEq

/-- Rust `book::Book` of the envelope-system crate: the currency map keyed
by ISO alpha code, plus the slot-indexed entity tables. -/
structure Book where
  currencies : List (String × Currency)
  transaction_drafts : List (Nat × TransactionDraftEntity)
  transactions : List (Nat × TransactionEntity)
  accounts : List (Nat × AccountEntity)

/-- Rust `Book::new()`: all collections start empty. -/
def Book.new : Book := ⟨[], [], [], []⟩

/-- Rust `changes::add_currency::Change`: holds the currency to add. -/
structure AddCurrencyChange where
  currency : Currency

/-- Rust `changes::add_currency::Change::apply`: error when the currency
map already holds the ISO alpha code, otherwise insert the currency keyed
by that code. -/
def AddCurrencyChange.apply (self : AddCurrencyChange) (book : Book) :
    Except ChangeApplicationFailure Unit × Book :=
  if (Bookkeeping.lookupA book.currencies self.currency.iso_alpha_code).isSome then
    (Except.error (ChangeApplicationFailure.CurrencyAlreadyExists
      self.currency.iso_alpha_code), book)
  else
    (Except.ok (),
      { book with
          currencies := (self.currency.iso_alpha_code, self.currency) :: book.currencies })

/-- Claim C9: applying an `add_currency` change returns
`CurrencyAlreadyExists` iff the book's currency map already holds the
currency's ISO alpha code; in the error case the book is left unchanged;
otherwise the change inserts the currency keyed by its ISO alpha code,
leaves every other key's binding intact, and returns `Ok`. -/
theorem add_currency_error_iff_present (c : AddCurrencyChange) (b : Book) :
    ((c.apply b).1 = Except.error
        (ChangeApplicationFailure.CurrencyAlreadyExists c.currency.iso_alpha_code) ↔
      (Bookkeeping.lookupA b.currencies c.currency.iso_alpha_code).isSome) ∧
    ((Bookkeeping.lookupA b.currencies c.currency.iso_alpha_code).isSome →
      (c.apply b).2 = b) ∧
    ((Bookkeeping.lookupA b.currencies c.currency.iso_alpha_code).isSome = false →
      (c.apply b).1 = Except.ok () ∧
      Bookkeeping.lookupA (c.apply b).2.currencies c.currency.iso_alpha_code =
        some c.currency ∧
      ∀ k, k ≠ c.currency.iso_alpha_code →
        Bookkeeping.lookupA (c.apply b).2.currencies k =
          Bookkeeping.lookupA b.currencies k) := by
  by_cases h : (Bookkeeping.lookupA b.currencies c.currency.iso_alpha_code).isSome
  · refine ⟨?_, fun _ => ?_, fun hn => ?_⟩
    · simp [AddCurrencyChange.apply, h]
    · simp [AddCurrencyChange.apply, h]
    · rw [h] at hn; cases hn
  · refine ⟨?_, fun hc => absurd hc h, fun _ => ?_⟩
    · simp [AddCurrencyChange.apply, h]
    · refine ⟨?_, ?_, ?_⟩
      · simp [AddCurrencyChange.apply, h]
      · simp [AddCurrencyChange.apply, h, Bookkeeping.lookupA]
      · intro k hk
        simp [AddCurrencyChange.apply, h, Bookkeeping.lookupA, hk]

/-- A book already holding the THB currency. -/
def bookWithTHB : Book := ⟨[("THB", ⟨"THB"⟩)], [], [], []⟩

/-- The change that adds the THB currency. -/
def addTHB : AddCurrencyChange := ⟨⟨"THB"⟩⟩

theorem add_currency_error_iff_present_witness :
    (addTHB.apply bookWithTHB).1 = Except.error
      (ChangeApplicationFailure.CurrencyAlreadyExists "THB") ∧
    (addTHB.apply bookWithTHB).2 = bookWithTHB ∧
    (addTHB.apply Book.new).1 = Except.ok () ∧
    Bookkeeping.lookupA (addTHB.apply Book.new).2.currencies "THB" = some ⟨"THB"⟩ := by
  have h1 := add_currency_error_iff_present addTHB bookWithTHB
  have h2 := add_currency_error_iff_present addTHB Book.new
  refine ⟨?_, ?_, ?_, ?_⟩
  · exact h1.1.mpr (by decide)
  · exact h1.2.1 (by decide)
  · exact (h2.2.2 (by decide)).1
  · exact (h2.2.2 (by decide)).2.1

end EnvelopeSystem
